import Mathlib

/-!
Verification of the Pixano `pxn-canvas-2d` annotation interaction engine
(`src/packages/graphics-2d/src/pxn-canvas-2d.ts`) against its specification.

The engine state is shallowly embedded: the observable shape collection
(`_shapes`) and the selection set (`shManager.targetShapes`) become lists of
`ShapeData` records (JS `Set`s preserve insertion order, which the `Tab`
navigation relies on); the DOM `CustomEvent`s dispatched by the element become
an explicit event trace returned by each operation.

`ObservableSet` (from `@pixano/core`) and `ShapesManager`
(`shapes-manager.ts`) are not part of the sources under verification; every
definition that depends on their behaviour is modelled from the spec and says
so in its doc comment.
-/

namespace Pxn

/-- A 2d shape record (`ShapeData` from `types.ts`): a string id plus an
opaque geometry payload and property bag, both irrelevant to the engine and
modelled as strings. -/
structure ShapeData where
  id : String
  geometry : String
  props : String
deriving DecidableEq, Repr

/-- `InteractiveMode` from `pxn-canvas-2d.ts`: `"edit" | "create" | "none"`. -/
inductive InteractiveMode where
  | edit
  | create
  | none
deriving DecidableEq, Repr

/-- The `CustomEvent`s dispatched by `Canvas2d` (`notifyCreate`,
`notifyUpdate`, `notifyDelete`, `notifySelection`), with their `detail`
payloads. -/
inductive Event where
  | create (shape : ShapeData)
  | update (ids : List String)
  | delete (ids : List String)
  | selection (ids : List String)
deriving DecidableEq, Repr

/-- The engine state: the shape collection `_shapes` and the selection set
`shManager.targetShapes`, both insertion-ordered. -/
structure EngineState where
  collection : List ShapeData
  selection : List ShapeData
deriving DecidableEq, Repr

/-- Id-keyed membership: the collection is keyed by `id` (spec §3), and the
engine compares shapes through their ids. -/
def idMem (l : List ShapeData) (x : String) : Bool :=
  l.any (fun t => t.id == x)

/-- The subset invariant (spec §3): every shape in the selection set is
present (by id) in the shape collection. -/
def SelSubset (st : EngineState) : Prop :=
  ∀ s ∈ st.selection, idMem st.collection s.id = true

instance (st : EngineState) : Decidable (SelSubset st) :=
  List.decidableBAll _ _

/-- Modelled from the spec: `ObservableSet.add` of `@pixano/core` (not under
`src/`). Spec §4.1: the container is keyed by id, and adding an item whose id
already exists overwrites it (last-write-wins, identity preserved); otherwise
the item is appended in insertion order. -/
def addItem (l : List ShapeData) (n : ShapeData) : List ShapeData :=
  if idMem l n.id then l.map (fun t => if t.id == n.id then n else t)
  else l ++ [n]

/-- `this.shapes.add(shape)` as observed through `initShapeSetObserver`: the
collection observer reacts to `"add"` by `notifyCreate(shape)`, so one
`create` event fires. The selection is untouched. -/
def addShapeOp (st : EngineState) (n : ShapeData) : EngineState × List Event :=
  (⟨addItem st.collection n, st.selection⟩, [Event.create n])

/-- `this.shapes.delete(s)` for a single shape. The collection observer in
`initShapeSetObserver` reacts to `"delete"` by `notifyDelete([shape.id])` —
one `delete` event per removed shape, carrying a one-element id list.
Modelled from the spec: `ShapesManager` (not under `src/`) also observes the
collection and, per spec §4.2, synchronously removes a deleted item from the
selection set before external listeners observe the deletion; that removal is
an element-wise `"delete"` on `targetShapes`, so the `prop of "set"` observer
fires `notifySelection` with the remaining selected ids. `ShapesManager` is
constructed before `initShapeSetObserver` runs, so its observer is notified
first (spec §5: subscription order), placing the `selection` event before the
`delete` event. Deleting a shape that is not in the collection changes
nothing and fires nothing. -/
def deleteShapeOp (st : EngineState) (s : ShapeData) : EngineState × List Event :=
  if idMem st.collection s.id then
    let newColl := st.collection.filter (fun t => !(t.id == s.id))
    let wasSel := idMem st.selection s.id
    let newSel := st.selection.filter (fun t => !(t.id == s.id))
    (⟨newColl, newSel⟩,
      (if wasSel then [Event.selection (newSel.map (fun t => t.id))] else [])
        ++ [Event.delete [s.id]])
  else (st, [])

/-- The `Delete` branch of `keyBinding` iterates
`targetShapes.forEach((s) => this.shapes.delete(s))`: each selected shape is
deleted from the collection in turn (a JS `Set.forEach` still visits the
remaining elements when the current one is removed mid-iteration, so the
original selection order is traversed). -/
def deleteAll : List ShapeData → EngineState → EngineState × List Event
  | [], st => (st, [])
  | s :: rest, st =>
    let r1 := deleteShapeOp st s
    let r2 := deleteAll rest r1.1
    (r2.1, r1.2 ++ r2.2)

/-- `Delete` branch of `keyBinding`: delete every selected shape from the
collection, then `targetShapes.clear()`. Spec §4.2: `clear` notifies with
prop `"set"` (empty), which the `prop of "set"` observer ignores, so the
final clear fires no event. -/
def onDeleteKey (st : EngineState) : EngineState × List Event :=
  let r := deleteAll st.selection st
  (⟨r.1.collection, []⟩, r.2)

/-- `Escape` branch of `keyBinding`: `targetShapes.clear()`. The collection
is untouched; the `"set"` notification of `clear` (spec §4.2) is ignored by
the selection observer, so no event fires. -/
def onEscape (st : EngineState) : EngineState × List Event :=
  (⟨st.collection, []⟩, [])

/-- The `selectedShapeIds` setter:
`[...this.shapes].filter((s) => ids.includes(s.id))` followed by
`targetShapes.set(shapes)`. The filter keeps exactly the collection members
whose id occurs in `ids`; `set` replaces the selection and (spec §4.2)
notifies with prop `"set"`, which the `prop of "set"` observer ignores, so
no `selection` event fires. The operation is total: unknown ids are filtered
out, nothing throws. -/
def setSelectedShapeIds (st : EngineState) (ids : List String) : EngineState × List Event :=
  let shapes := st.collection.filter (fun s => ids.contains s.id)
  (⟨st.collection, shapes⟩, [])

/-- The `shapes` setter: `this._shapes.set((value as any).map(observable))`;
`observable` only wraps for property observation and is the identity on the
data. Modelled from the spec: `ShapesManager` (not under `src/`) observes the
collection; a bulk `set` is a replace-from-scratch (spec §3: the rendering
collaborator redraws from scratch) that rebuilds the scene and clears the
selection set, preserving the §3 subset invariant. The collection observer in
`initShapeSetObserver` reacts only to `"add"` and `"delete"`, and the
selection clear notifies with `"set"`, so a bulk replace fires no event. -/
def setShapesOp (_st : EngineState) (value : List ShapeData) : EngineState × List Event :=
  (⟨value, []⟩, [])

/-- JS `Array.prototype.findIndex`: index of the first element satisfying the
predicate, `-1` when none does. -/
def findIdxO (p : ShapeData → Bool) : List ShapeData → Option Nat
  | [] => Option.none
  | a :: l => if p a then some 0 else (findIdxO p l).map (fun i => i + 1)

/-- `findIndex` with the JS `-1` sentinel. -/
def findIndexJs (p : ShapeData → Bool) (l : List ShapeData) : Int :=
  match findIdxO p l with
  | some i => (i : Int)
  | Option.none => -1

/-- The `nextShape` computation of `onTabulation`. From the source:
`const currIdx = shapes.findIndex((s) => targetShapes.has(s)) || 0;` —
`findIndex` yields `-1` when no collection element is selected, and `-1` is
truthy in JS, so `|| 0` only replaces a `0` result by `0`: the expression
equals plain `findIndex` and the no-selection case proceeds with `currIdx =
-1`. (`targetShapes.has(s)` is JS `Set` identity; selected shapes are
collection elements and ids are the keys, so it is id membership here.) The
next index is `(currIdx ± 1 + len) % len`: JS `%` is a truncating remainder,
`x % 0` is `NaN`, and `shapes[NaN]` / a negative index yield `undefined`, in
which case the `if (nextShape)` guard makes the whole call a no-op. When a
shape is found, `targetShapes.set([nextShape])` replaces the selection; the
`"set"` notification (spec §4.2) is ignored by the `prop of "set"` observer,
so no event fires. -/
def tabNextShape (shiftKey : Bool) (st : EngineState) : Option ShapeData :=
  let shapes := st.collection
  let currIdx : Int := findIndexJs (fun s => st.selection.any (fun t => t.id == s.id)) shapes
  let len : Int := shapes.length
  let nextIdx : Int := if shiftKey then currIdx + 1 + len else currIdx - 1 + len
  if shapes.length = 0 then Option.none
  else
    let r := Int.tmod nextIdx len
    if r < 0 then Option.none else shapes.get? r.toNat

/-- The tail of `onTabulation`: when `nextShape` is defined,
`targetShapes.set([nextShape])` replaces the selection (its `"set"`
notification is ignored by the `prop of "set"` observer, so no event fires);
otherwise the `if (nextShape)` guard makes the call a no-op. -/
def onTabulation (mode : InteractiveMode) (shiftKey : Bool) (st : EngineState) :
    EngineState × List Event :=
  if mode = InteractiveMode.create then (st, [])
  else
    match tabNextShape shiftKey st with
    | some s => (⟨st.collection, [s]⟩, [])
    | Option.none => (st, [])

/-- The keys handled by `Canvas2d.keyBinding` (any other key falls through to
the parent class, out of scope). -/
inductive Key where
  | tab (shift : Bool)
  | delete
  | escape
  | other
deriving DecidableEq, Repr

/-- `Canvas2d.keyBinding`: dispatch on `event.key`. -/
def keyBinding (mode : InteractiveMode) (k : Key) (st : EngineState) :
    EngineState × List Event :=
  match k with
  | Key.tab shift => onTabulation mode shift st
  | Key.delete => onDeleteKey st
  | Key.escape => onEscape st
  | Key.other => (st, [])

/-- `onCopy`: when the selection is non-empty, returns
`JSON.stringify([...targetShapes])`; otherwise returns `undefined`. The
clipboard is modelled at the parsed level: the produced text is the
serialization of exactly the selected shapes in order. -/
def onCopy (st : EngineState) : Option (List ShapeData) :=
  if st.selection.isEmpty then Option.none else some st.selection

/-- The outcome of `JSON.parse` on a pasted text: the parse throws, or
produces a value that is not an `Array`, or produces an array of shape
payloads. -/
inductive ParseResult where
  | fail
  | nonArray
  | arr (vs : List ShapeData)
deriving DecidableEq, Repr

/-- `JSON.parse(JSON.stringify(shapes))` round-trips an array of plain shape
records: the text produced by `onCopy` parses back to the same list. -/
def parseOfCopy (l : List ShapeData) : ParseResult :=
  ParseResult.arr l

/-- The error surfaced when `JSON.parse` throws inside `onPaste`. -/
inductive PasteError where
  | parse
deriving DecidableEq, Repr

/-- The shapes constructed by `onPaste` for an array payload, numbering the
elements from `i`: `{ ...v, id: Math.random().toString(36).substring(7) }` —
the spread copies every field of the payload and then overrides `id` with a
freshly drawn random string. The ambient random source is embedded as a
generator `gen : Nat → String` giving the id drawn for each element. -/
def pastedShapesFrom (gen : Nat → String) : Nat → List ShapeData → List ShapeData
  | _, [] => []
  | i, v :: vs => { v with id := gen i } :: pastedShapesFrom gen (i + 1) vs

/-- The full list of shapes an array paste adds. -/
def pastedShapes (gen : Nat → String) (vs : List ShapeData) : List ShapeData :=
  pastedShapesFrom gen 0 vs

/-- `value.forEach((v) => ... this.shapes.add(shape))`: add each constructed
shape to the collection in order, accumulating the dispatched events. -/
def addAll : List ShapeData → EngineState → EngineState × List Event
  | [], st => (st, [])
  | n :: ns, st =>
    let r1 := addShapeOp st n
    let r2 := addAll ns r1.1
    (r2.1, r1.2 ++ r2.2)

/-- `onPaste(text)`: `JSON.parse(text)` throws on malformed text — the
exception propagates to the caller before any mutation; a parsed value that
is not an `Array` fails the `instanceof Array` test and the call returns
silently with nothing changed; an array payload is traversed with `forEach`,
adding one re-identified shape per element. -/
def onPaste (gen : Nat → String) (pr : ParseResult) (st : EngineState) :
    Except PasteError (EngineState × List Event) :=
  match pr with
  | ParseResult.fail => Except.error PasteError.parse
  | ParseResult.nonArray => Except.ok (st, [])
  | ParseResult.arr vs => Except.ok (addAll (pastedShapes gen vs) st)

/-- The `delete` events of a trace. -/
def deleteEvents (evs : List Event) : List Event :=
  evs.filter fun e => match e with | Event.delete _ => true | _ => false

/-- The `create` events of a trace. -/
def createEvents (evs : List Event) : List Event :=
  evs.filter fun e => match e with | Event.create _ => true | _ => false

/-- The `selection` events of a trace. -/
def selectionEvents (evs : List Event) : List Event :=
  evs.filter fun e => match e with | Event.selection _ => true | _ => false

/-- Modelled from the spec: the tie-break mechanism claimed for `Tab` — when
no shape is selected, "treat current index as 0 before computing the next
index" — which would give next index `(0 + 1 + len) % len` under Shift+Tab
and `(0 - 1 + len) % len` under Tab. Stated only to be compared against the
behaviour of `onTabulation`. -/
def tabNextIdxSpecZero (shiftKey : Bool) (len : Nat) : Int :=
  if len = 0 then -1
  else Int.tmod (if shiftKey then (0 : Int) + 1 + len else (0 : Int) - 1 + len) len

/-! ### Concrete fixtures used by witnesses and counterexamples -/

def shA : ShapeData := ⟨"a", "ga", "pa"⟩

def shB : ShapeData := ⟨"b", "gb", "pb"⟩

def shC : ShapeData := ⟨"c", "gc", "pc"⟩

def shD : ShapeData := ⟨"d", "gd", "pd"⟩

def shE : ShapeData := ⟨"e", "ge", "pe"⟩

def shO : ShapeData := ⟨"o1", "go", "po"⟩

def coll5 : List ShapeData := [shA, shB, shC, shD, shE]

/-- A payload as it would arrive in a pasted array. -/
def vX : ShapeData := ⟨"x", "gx", "px"⟩

/-- A deterministic stand-in for the ambient random id source. -/
def genZ : Nat → String := fun _ => "z"

/-- A random id source that happens to draw an id already in use. -/
def genA : Nat → String := fun _ => "a"

/-- A random id source that happens to draw the id of a copied original. -/
def genO : Nat → String := fun _ => "o1"

/-! ### Helper lemmas -/

theorem engineState_eq {x : EngineState} {c s : List ShapeData}
    (h1 : x.collection = c) (h2 : x.selection = s) : x = ⟨c, s⟩ := by
  cases x
  cases h1
  cases h2
  rfl

theorem iterate_five {α : Type} (f : α → α) (a0 a1 a2 a3 a4 a5 : α)
    (h1 : f a0 = a1) (h2 : f a1 = a2) (h3 : f a2 = a3) (h4 : f a3 = a4)
    (h5 : f a4 = a5) : f^[5] a0 = a5 := by
  show f (f (f (f (f a0)))) = a5
  rw [h1, h2, h3, h4, h5]

theorem idMem_iff {l : List ShapeData} {x : String} :
    idMem l x = true ↔ ∃ t ∈ l, t.id = x := by
  simp [idMem, List.any_eq_true]

theorem idMem_of_mem {l : List ShapeData} {s : ShapeData} (h : s ∈ l) :
    idMem l s.id = true :=
  idMem_iff.mpr ⟨s, h, rfl⟩

theorem idMem_addItem {l : List ShapeData} {x : String} (n : ShapeData)
    (h : idMem l x = true) : idMem (addItem l n) x = true := by
  rcases idMem_iff.mp h with ⟨t, ht, hx⟩
  unfold addItem
  by_cases hc : idMem l n.id = true
  · simp only [hc, if_true]
    by_cases hn : t.id = n.id
    · exact idMem_iff.mpr ⟨n, List.mem_map.mpr ⟨t, ht, by simp [hn]⟩, by rw [← hn, hx]⟩
    · refine idMem_iff.mpr ⟨t, List.mem_map.mpr ⟨t, ht, ?_⟩, hx⟩
      simp [hn]
  · simp only [hc, if_false]
    exact idMem_iff.mpr ⟨t, List.mem_append_left _ ht, hx⟩

theorem idMem_filter_ne {l : List ShapeData} {x y : String}
    (h : idMem l x = true) (hxy : x ≠ y) :
    idMem (l.filter fun t => !(t.id == y)) x = true := by
  rcases idMem_iff.mp h with ⟨t, ht, hx⟩
  refine idMem_iff.mpr ⟨t, List.mem_filter.mpr ⟨ht, ?_⟩, hx⟩
  simp [hx, hxy]

theorem addItem_append {l : List ShapeData} {n : ShapeData}
    (h : idMem l n.id = false) : addItem l n = l ++ [n] := by
  unfold addItem
  simp [h]

/-- When every added id is absent from the collection and the added ids are
pairwise distinct, `addAll` appends the new shapes in order and leaves the
selection alone, firing one `create` event per shape. -/
theorem addAll_fresh : ∀ (l : List ShapeData) (st : EngineState),
    (∀ s ∈ l, idMem st.collection s.id = false) →
    (l.map fun s => s.id).Nodup →
    (addAll l st).1.collection = st.collection ++ l ∧
      (addAll l st).1.selection = st.selection
  | [], st, _, _ => by simp [addAll]
  | n :: ns, st, hfresh, hnd => by
    rw [List.map_cons, List.nodup_cons] at hnd
    have hn : idMem st.collection n.id = false := hfresh n (List.mem_cons_self _ _)
    have hstep : (addShapeOp st n).1 = ⟨st.collection ++ [n], st.selection⟩ := by
      simp [addShapeOp, addItem_append hn]
    have hrest : ∀ s ∈ ns, idMem (st.collection ++ [n]) s.id = false := by
      intro s hs
      have h1 : idMem st.collection s.id = false := hfresh s (List.mem_cons_of_mem _ hs)
      have h2 : s.id ≠ n.id := by
        intro hEq
        exact hnd.1 (hEq ▸ List.mem_map.mpr ⟨s, hs, rfl⟩)
      rw [idMem, List.any_append]
      simp only [Bool.or_eq_false_iff]
      refine ⟨by simpa [idMem] using h1, ?_⟩
      simp only [List.any_cons, List.any_nil, Bool.or_false, beq_eq_false_iff_ne]
      exact fun hh => h2 hh.symm
    have ih := addAll_fresh ns ⟨st.collection ++ [n], st.selection⟩ hrest hnd.2
    have hfirst : (addAll (n :: ns) st).1 = (addAll ns (addShapeOp st n).1).1 := by
      simp [addAll]
    rw [hfirst, hstep]
    refine ⟨?_, ih.2⟩
    rw [ih.1]
    simp

/-- `addAll` fires exactly one `create` event per added shape, in order. -/
theorem addAll_events : ∀ (l : List ShapeData) (st : EngineState),
    (addAll l st).2 = l.map Event.create
  | [], _ => rfl
  | n :: ns, st => by
    unfold addAll
    simp [addShapeOp, addAll_events ns]

theorem createEvents_map_create : ∀ l : List ShapeData,
    createEvents (l.map Event.create) = l.map Event.create
  | [] => rfl
  | a :: l => by
    have ih := createEvents_map_create l
    rw [List.map_cons, createEvents, List.filter_cons]
    rw [createEvents] at ih
    simp only [if_pos]
    rw [ih]

theorem pastedShapesFrom_map_payload (gen : Nat → String) :
    ∀ (i : Nat) (vs : List ShapeData),
      (pastedShapesFrom gen i vs).map (fun s => (s.geometry, s.props)) =
        vs.map (fun s => (s.geometry, s.props))
  | _, [] => rfl
  | i, v :: vs => by
    unfold pastedShapesFrom
    simp [pastedShapesFrom_map_payload gen (i + 1) vs]

theorem pastedShapesFrom_map_id (gen : Nat → String) :
    ∀ (i : Nat) (vs : List ShapeData),
      (pastedShapesFrom gen i vs).map (fun s => s.id) =
        (List.range' i vs.length).map gen
  | _, [] => rfl
  | i, v :: vs => by
    unfold pastedShapesFrom
    simp [pastedShapesFrom_map_id gen (i + 1) vs, List.range']

theorem pastedShapes_map_id (gen : Nat → String) (vs : List ShapeData) :
    (pastedShapes gen vs).map (fun s => s.id) = (List.range vs.length).map gen := by
  rw [pastedShapes, pastedShapesFrom_map_id, List.range_eq_range']

theorem pastedShapes_length (gen : Nat → String) (vs : List ShapeData) :
    (pastedShapes gen vs).length = vs.length := by
  have := congrArg List.length (pastedShapes_map_id gen vs)
  simpa using this

/-- When the generator is injective below `vs.length`, the pasted ids are
pairwise distinct. -/
theorem pastedShapes_id_nodup (gen : Nat → String) (vs : List ShapeData)
    (hinj : ∀ i < vs.length, ∀ j < vs.length, gen i = gen j → i = j) :
    ((pastedShapes gen vs).map fun s => s.id).Nodup := by
  rw [pastedShapes_map_id]
  refine List.Nodup.map_on ?_ (List.nodup_range _)
  intro i hi j hj hij
  exact hinj i (List.mem_range.mp hi) j (List.mem_range.mp hj) hij

/-- Every pasted shape carries an id produced by the generator at an index
below the payload length. -/
theorem pastedShapes_id_mem (gen : Nat → String) (vs : List ShapeData)
    (s : ShapeData) (hs : s ∈ pastedShapes gen vs) :
    ∃ k < vs.length, s.id = gen k := by
  have hmem : s.id ∈ (pastedShapes gen vs).map (fun t => t.id) :=
    List.mem_map.mpr ⟨s, hs, rfl⟩
  rw [pastedShapes_map_id] at hmem
  rcases List.mem_map.mp hmem with ⟨k, hk, hEq⟩
  exact ⟨k, List.mem_range.mp hk, hEq.symm⟩

theorem deleteShapeOp_present {st : EngineState} {s : ShapeData}
    (h : idMem st.collection s.id = true) :
    deleteShapeOp st s =
      (⟨st.collection.filter (fun t => !(t.id == s.id)),
        st.selection.filter (fun t => !(t.id == s.id))⟩,
       (if idMem st.selection s.id then
          [Event.selection ((st.selection.filter (fun t => !(t.id == s.id))).map
            (fun t => t.id))]
        else []) ++ [Event.delete [s.id]]) := by
  rw [deleteShapeOp, if_pos h]

theorem deleteEvents_append (a b : List Event) :
    deleteEvents (a ++ b) = deleteEvents a ++ deleteEvents b :=
  List.filter_append _ _

/-- Deleting a list of shapes whose ids are pairwise distinct and all present
in the collection fires exactly one `delete` event per shape, each carrying
that single id, in traversal order. -/
theorem deleteAll_deleteEvents : ∀ (l : List ShapeData) (st : EngineState),
    (∀ s ∈ l, idMem st.collection s.id = true) →
    (l.map fun s => s.id).Nodup →
    deleteEvents (deleteAll l st).2 = l.map fun s => Event.delete [s.id]
  | [], _, _, _ => rfl
  | s :: rest, st, hpres, hnd => by
    rw [List.map_cons, List.nodup_cons] at hnd
    have hs : idMem st.collection s.id = true := hpres s (List.mem_cons_self _ _)
    have hev : (deleteAll (s :: rest) st).2 =
        (deleteShapeOp st s).2 ++ (deleteAll rest (deleteShapeOp st s).1).2 := by
      simp [deleteAll]
    have hst : (deleteAll (s :: rest) st) =
        ((deleteAll rest (deleteShapeOp st s).1).1,
          (deleteShapeOp st s).2 ++ (deleteAll rest (deleteShapeOp st s).1).2) := by
      simp [deleteAll]
    have hrest : ∀ t ∈ rest, idMem (deleteShapeOp st s).1.collection t.id = true := by
      intro t ht
      have h1 : idMem st.collection t.id = true := hpres t (List.mem_cons_of_mem _ ht)
      have h2 : t.id ≠ s.id := by
        intro hEq
        exact hnd.1 (hEq ▸ List.mem_map.mpr ⟨t, ht, rfl⟩)
      rw [deleteShapeOp_present hs]
      exact idMem_filter_ne h1 h2
    have ih := deleteAll_deleteEvents rest (deleteShapeOp st s).1 hrest hnd.2
    rw [hev, deleteEvents_append, ih, deleteShapeOp_present hs]
    by_cases hw : idMem st.selection s.id = true
    · simp [hw, deleteEvents]
    · simp only [Bool.not_eq_true] at hw
      simp [hw, deleteEvents]

/-- `findIdxO` ignores elements and returns `none` when the predicate holds
nowhere. -/
theorem findIdxO_eq_none : ∀ (l : List ShapeData) (p : ShapeData → Bool),
    (∀ a ∈ l, p a = false) → findIdxO p l = Option.none
  | [], _, _ => rfl
  | a :: l, p, h => by
    have ha := h a (List.mem_cons_self _ _)
    rw [findIdxO, if_neg (by simp [ha]),
      findIdxO_eq_none l p (fun b hb => h b (List.mem_cons_of_mem _ hb))]
    rfl

/-- In a collection with pairwise-distinct ids, searching for the id of the
`i`-th element finds exactly index `i`. -/
theorem findIdxO_nodup_id : ∀ (coll : List ShapeData),
    ((coll.map fun s => s.id).Nodup) → ∀ (i : Nat) (a : ShapeData),
    coll.get? i = some a →
    findIdxO (fun s => a.id == s.id) coll = some i
  | [], _, i, a, h => by cases i <;> simp at h
  | b :: rest, hnd, 0, a, h => by
    have hab : a = b := by simpa using h.symm
    rw [findIdxO, if_pos (by simp [hab])]
  | b :: rest, hnd, Nat.succ k, a, h => by
    rw [List.map_cons, List.nodup_cons] at hnd
    have hk : rest.get? k = some a := by simpa using h
    have hmem : a ∈ rest := List.get?_mem hk
    have hne : a.id ≠ b.id := by
      intro hEq
      exact hnd.1 (hEq ▸ List.mem_map.mpr ⟨a, hmem, rfl⟩)
    rw [findIdxO, if_neg (by simp [hne]), findIdxO_nodup_id rest hnd.2 k a hk]
    rfl

theorem findIdxO_congr (p q : ShapeData → Bool) : ∀ (l : List ShapeData),
    (∀ s ∈ l, p s = q s) → findIdxO p l = findIdxO q l
  | [], _ => rfl
  | a :: l, h => by
    rw [findIdxO, findIdxO, h a (List.mem_cons_self _ _),
      findIdxO_congr p q l (fun s hs => h s (List.mem_cons_of_mem _ hs))]

theorem natCast_mod_int (m n : Nat) : ((m % n : Nat) : Int) = (m : Int) % (n : Int) := by
  push_cast
  ring

/-- With no shape selected, `currIdx` is `-1` (the `-1` sentinel of
`findIndex` survives `|| 0`), so the next index is `0` under Shift+Tab and
`(len - 2) % len` under Tab. -/
theorem tabNextShape_noselect (shift : Bool) (coll : List ShapeData)
    (hne : coll ≠ []) :
    tabNextShape shift ⟨coll, []⟩ =
      coll.get? (if shift then 0 else (coll.length - 2) % coll.length) := by
  have hpos : 0 < coll.length := List.length_pos.mpr hne
  have h0 : findIdxO (fun s => List.any ([] : List ShapeData) fun t => t.id == s.id)
      coll = Option.none := findIdxO_eq_none _ _ (fun a _ => rfl)
  have hfind : findIndexJs
      (fun s => List.any ([] : List ShapeData) fun t => t.id == s.id) coll = -1 := by
    rw [findIndexJs, h0]
  simp only [tabNextShape, hfind]
  rw [if_neg (Nat.pos_iff_ne_zero.mp hpos)]
  cases shift with
  | true =>
    have e1 : (-1 : Int) + 1 + (coll.length : Int) = (coll.length : Int) := by ring
    simp only [if_true, e1, Int.tmod_self]
    norm_num
  | false =>
    simp only [Bool.false_eq_true, if_false]
    rcases Nat.lt_or_ge coll.length 2 with h2 | h2
    · have h1 : coll.length = 1 := by omega
      rw [h1]
      norm_num
    · have e1 : (-1 : Int) - 1 + (coll.length : Int) = ((coll.length - 2 : Nat) : Int) := by
        omega
      rw [e1, Int.tmod_eq_emod (Int.natCast_nonneg _) (Int.natCast_nonneg _),
        ← natCast_mod_int, if_neg (Int.natCast_nonneg _).not_lt, Int.toNat_natCast]

/-- With the `i`-th collection element selected, `currIdx` is `i`, so the
next index is `(i + 1) % len` under Shift+Tab and `(i + len - 1) % len`
under Tab. -/
theorem tabNextShape_selected (shift : Bool) (coll : List ShapeData)
    (hnd : (coll.map fun s => s.id).Nodup) (i : Nat) (a : ShapeData)
    (ha : coll.get? i = some a) :
    tabNextShape shift ⟨coll, [a]⟩ =
      coll.get? ((if shift then i + 1 else i + coll.length - 1) % coll.length) := by
  have hi : i < coll.length := by
    rcases List.get?_eq_some.mp ha with ⟨h, _⟩
    exact h
  have hpos : 0 < coll.length := Nat.lt_of_le_of_lt (Nat.zero_le _) hi
  have hfind : findIndexJs
      (fun s => List.any [a] fun t => t.id == s.id) coll = (i : Int) := by
    rw [findIndexJs,
      findIdxO_congr (fun s => List.any [a] fun t => t.id == s.id)
        (fun s => a.id == s.id) coll (fun s _ => by simp),
      findIdxO_nodup_id coll hnd i a ha]
  simp only [tabNextShape, hfind]
  rw [if_neg (Nat.pos_iff_ne_zero.mp hpos)]
  cases shift with
  | true =>
    have e1 : (i : Int) + 1 + (coll.length : Int) = ((i + 1 + coll.length : Nat) : Int) := by
      push_cast
      ring
    simp only [if_true, e1]
    rw [Int.tmod_eq_emod (Int.natCast_nonneg _) (Int.natCast_nonneg _),
      ← natCast_mod_int, if_neg (Int.natCast_nonneg _).not_lt, Int.toNat_natCast,
      Nat.add_mod_right]
  | false =>
    have e1 : (i : Int) - 1 + (coll.length : Int) = ((i + coll.length - 1 : Nat) : Int) := by
      omega
    simp only [Bool.false_eq_true, if_false, e1]
    rw [Int.tmod_eq_emod (Int.natCast_nonneg _) (Int.natCast_nonneg _),
      ← natCast_mod_int, if_neg (Int.natCast_nonneg _).not_lt, Int.toNat_natCast]

/-- `onTabulation` outside `create` mode, from an empty selection: the
selection becomes the element at index `0` (Shift+Tab) or `(len - 2) % len`
(Tab); no event fires. -/
theorem onTabulation_noselect (mode : InteractiveMode)
    (hm : mode ≠ InteractiveMode.create) (shift : Bool) (coll : List ShapeData)
    (hne : coll ≠ []) :
    onTabulation mode shift ⟨coll, []⟩ =
      (⟨coll, (coll.get? (if shift then 0 else (coll.length - 2) % coll.length)).toList⟩,
        []) := by
  have hpos : 0 < coll.length := List.length_pos.mpr hne
  have hj : (if shift then 0 else (coll.length - 2) % coll.length) < coll.length := by
    cases shift
    · exact Nat.mod_lt _ hpos
    · exact hpos
  obtain ⟨b, hb⟩ : ∃ b, coll.get?
      (if shift then 0 else (coll.length - 2) % coll.length) = some b :=
    ⟨_, List.get?_eq_get hj⟩
  rw [onTabulation, if_neg hm, tabNextShape_noselect shift coll hne, hb]
  rfl

/-- `onTabulation` outside `create` mode, from a singleton selection of the
`i`-th collection element: the selection moves to index `(i + 1) % len`
(Shift+Tab) or `(i + len - 1) % len` (Tab); no event fires. -/
theorem onTabulation_selected (mode : InteractiveMode)
    (hm : mode ≠ InteractiveMode.create) (shift : Bool) (coll : List ShapeData)
    (hnd : (coll.map fun s => s.id).Nodup) (i : Nat) (a : ShapeData)
    (ha : coll.get? i = some a) :
    onTabulation mode shift ⟨coll, [a]⟩ =
      (⟨coll,
        (coll.get? ((if shift then i + 1 else i + coll.length - 1) % coll.length)).toList⟩,
        []) := by
  have hi : i < coll.length := by
    rcases List.get?_eq_some.mp ha with ⟨h, _⟩
    exact h
  have hpos : 0 < coll.length := Nat.lt_of_le_of_lt (Nat.zero_le _) hi
  obtain ⟨b, hb⟩ : ∃ b, coll.get?
      ((if shift then i + 1 else i + coll.length - 1) % coll.length) = some b :=
    ⟨_, List.get?_eq_get (Nat.mod_lt _ hpos)⟩
  rw [onTabulation, if_neg hm, tabNextShape_selected shift coll hnd i a ha, hb]
  rfl

/-- `onTabulation` never fires an event, whatever the state and mode. -/
theorem onTabulation_events (mode : InteractiveMode) (shift : Bool)
    (st : EngineState) : (onTabulation mode shift st).2 = [] := by
  rw [onTabulation]
  by_cases hm : mode = InteractiveMode.create
  · rw [if_pos hm]
  · rw [if_neg hm]
    cases tabNextShape shift st <;> rfl

/-- An array paste whose generated ids avoid the collection and each other
appends the re-identified shapes, leaves the selection alone, and fires one
`create` event per shape. -/
theorem onPaste_arr_fresh (gen : Nat → String) (vs : List ShapeData)
    (st : EngineState)
    (hfresh : ∀ i < vs.length, idMem st.collection (gen i) = false)
    (hinj : ∀ i < vs.length, ∀ j < vs.length, gen i = gen j → i = j) :
    onPaste gen (ParseResult.arr vs) st =
      Except.ok (⟨st.collection ++ pastedShapes gen vs, st.selection⟩,
        (pastedShapes gen vs).map Event.create) ∧
    (∀ s ∈ pastedShapes gen vs, idMem st.collection s.id = false) := by
  have hfr : ∀ s ∈ pastedShapes gen vs, idMem st.collection s.id = false := by
    intro s hs
    rcases pastedShapes_id_mem gen vs s hs with ⟨k, hk, hEq⟩
    rw [hEq]
    exact hfresh k hk
  refine ⟨?_, hfr⟩
  have hnd := pastedShapes_id_nodup gen vs hinj
  have h := addAll_fresh (pastedShapes gen vs) st hfr hnd
  have hpair : addAll (pastedShapes gen vs) st =
      (⟨st.collection ++ pastedShapes gen vs, st.selection⟩,
        (pastedShapes gen vs).map Event.create) := by
    rw [Prod.ext_iff]
    exact ⟨engineState_eq h.1 h.2, addAll_events _ _⟩
  show Except.ok (addAll (pastedShapes gen vs) st) = _
  rw [hpair]

theorem deleteShapeOp_state (st : EngineState) (s : ShapeData) :
    (deleteShapeOp st s).1 =
      if idMem st.collection s.id then
        ⟨st.collection.filter (fun t => !(t.id == s.id)),
          st.selection.filter (fun t => !(t.id == s.id))⟩
      else st := by
  by_cases h : idMem st.collection s.id = true
  · rw [deleteShapeOp_present h, if_pos h]
  · rw [deleteShapeOp, if_neg h, if_neg h]

/-! ### Claims -/

/-- **C9** (confirmed): with an empty shape collection, pressing Tab or
Shift+Tab is a total no-op: the modulo-zero index computation produces `NaN`,
the lookup yields `undefined`, the `if (nextShape)` guard fails, and both the
collection and the selection are left unchanged with no event fired. -/
theorem c9_tab_empty_noop (mode : InteractiveMode) (shift : Bool)
    (st : EngineState) (h : st.collection = []) :
    keyBinding mode (Key.tab shift) st = (st, []) := by
  rw [keyBinding, onTabulation]
  by_cases hm : mode = InteractiveMode.create
  · rw [if_pos hm]
  · rw [if_neg hm]
    have hn : tabNextShape shift st = Option.none := by
      rw [tabNextShape]
      simp [h]
    rw [hn]

theorem c9_tab_empty_noop_witness :
    (⟨[], [shA]⟩ : EngineState).collection = [] ∧
    keyBinding InteractiveMode.edit (Key.tab false) ⟨[], [shA]⟩ = (⟨[], [shA]⟩, []) :=
  ⟨rfl, c9_tab_empty_noop InteractiveMode.edit false ⟨[], [shA]⟩ rfl⟩

/-- **C10** (confirmed): assigning any id list to `selectedShapeIds` is a
total operation (never throws), silently filters out ids with no matching
shape, selects exactly the collection members whose id occurs in the list,
leaves the collection untouched, and preserves the subset invariant. -/
theorem c10_filter_and_ignore (st : EngineState) (ids : List String) :
    (setSelectedShapeIds st ids).1.collection = st.collection ∧
    (∀ s : ShapeData, s ∈ (setSelectedShapeIds st ids).1.selection ↔
      s ∈ st.collection ∧ ids.contains s.id = true) ∧
    SelSubset (setSelectedShapeIds st ids).1 := by
  refine ⟨rfl, fun s => List.mem_filter, ?_⟩
  intro t ht
  exact idMem_of_mem (List.mem_filter.mp ht).1

/-- **C1** (confirmed): the subset invariant — every selected shape is
present (by id) in the shape collection — is preserved by every engine
operation: adding a shape, deleting the selection via the Delete key,
clearing the selection via Escape, assigning `selectedShapeIds`, and
bulk-replacing the whole collection via the `shapes` setter; and removing a
single shape from the collection removes it (by id) from the selection. -/
theorem c1_subset_invariant (st : EngineState) (n : ShapeData) (ids : List String)
    (vs : List ShapeData) (s : ShapeData) (mode : InteractiveMode)
    (hinv : SelSubset st) :
    SelSubset (addShapeOp st n).1 ∧
    SelSubset (keyBinding mode Key.delete st).1 ∧
    SelSubset (keyBinding mode Key.escape st).1 ∧
    SelSubset (setSelectedShapeIds st ids).1 ∧
    SelSubset (setShapesOp st vs).1 ∧
    SelSubset (deleteShapeOp st s).1 ∧
    (∀ t ∈ (deleteShapeOp st s).1.selection, t.id ≠ s.id) := by
  refine ⟨?_, ?_, ?_, ?_, ?_, ?_, ?_⟩
  · intro t ht
    exact idMem_addItem n (hinv t ht)
  · intro t ht
    simp [keyBinding, onDeleteKey] at ht
  · intro t ht
    simp [keyBinding, onEscape] at ht
  · intro t ht
    exact idMem_of_mem (List.mem_filter.mp ht).1
  · intro t ht
    simp [setShapesOp] at ht
  · intro t ht
    rw [deleteShapeOp_state] at ht ⊢
    by_cases hc : idMem st.collection s.id = true
    · rw [if_pos hc] at ht ⊢
      have h1 := List.mem_filter.mp ht
      have h2 : t.id ≠ s.id := by simpa using h1.2
      exact idMem_filter_ne (hinv t h1.1) h2
    · rw [if_neg hc] at ht ⊢
      exact hinv t ht
  · intro t ht
    rw [deleteShapeOp_state] at ht
    by_cases hc : idMem st.collection s.id = true
    · rw [if_pos hc] at ht
      simpa using (List.mem_filter.mp ht).2
    · rw [if_neg hc] at ht
      intro hEq
      exact hc (hEq ▸ hinv t ht)

theorem c1_subset_invariant_witness :
    SelSubset ⟨[shA, shB], [shA]⟩ ∧
    (SelSubset (addShapeOp ⟨[shA, shB], [shA]⟩ shC).1 ∧
      SelSubset (keyBinding InteractiveMode.edit Key.delete ⟨[shA, shB], [shA]⟩).1 ∧
      SelSubset (keyBinding InteractiveMode.edit Key.escape ⟨[shA, shB], [shA]⟩).1 ∧
      SelSubset (setSelectedShapeIds ⟨[shA, shB], [shA]⟩ ["b"]).1 ∧
      SelSubset (setShapesOp ⟨[shA, shB], [shA]⟩ [shD]).1 ∧
      SelSubset (deleteShapeOp ⟨[shA, shB], [shA]⟩ shA).1 ∧
      (∀ t ∈ (deleteShapeOp ⟨[shA, shB], [shA]⟩ shA).1.selection, t.id ≠ shA.id)) :=
  ⟨by decide,
    c1_subset_invariant ⟨[shA, shB], [shA]⟩ shC ["b"] [shD] shA InteractiveMode.edit
      (by decide)⟩

/-- **C2** counterexample: with two shapes selected, the Delete key fires two
`delete` events, each carrying a single id — not one `delete` event whose
detail lists both removed ids, as the claim states. -/
theorem c2_counterexample :
    deleteEvents (onDeleteKey ⟨[shA, shB], [shA, shB]⟩).2 =
      [Event.delete ["a"], Event.delete ["b"]] ∧
    (deleteEvents (onDeleteKey ⟨[shA, shB], [shA, shB]⟩).2).length ≠ 1 := by
  decide

/-- **C2** (amended): pressing Delete with `k` selected shapes (each present
in the collection, ids pairwise distinct) fires `k` separate `delete` events,
the `j`-th carrying exactly the one-element id list of the `j`-th selected
shape, in selection order; the selection is cleared afterwards. -/
theorem c2_delete_events_per_shape (st : EngineState) (hinv : SelSubset st)
    (hnd : (st.selection.map fun s => s.id).Nodup) :
    deleteEvents (onDeleteKey st).2 =
      st.selection.map (fun s => Event.delete [s.id]) ∧
    (onDeleteKey st).1.selection = [] := by
  refine ⟨?_, rfl⟩
  have h : (onDeleteKey st).2 = (deleteAll st.selection st).2 := rfl
  rw [h]
  exact deleteAll_deleteEvents st.selection st (fun s hs => hinv s hs) hnd

theorem c2_delete_events_per_shape_witness :
    (SelSubset ⟨[shA, shB, shC], [shA, shC]⟩ ∧
      ((⟨[shA, shB, shC], [shA, shC]⟩ : EngineState).selection.map
        fun s => s.id).Nodup) ∧
    (deleteEvents (onDeleteKey ⟨[shA, shB, shC], [shA, shC]⟩).2 =
        (⟨[shA, shB, shC], [shA, shC]⟩ : EngineState).selection.map
          (fun s => Event.delete [s.id]) ∧
      (onDeleteKey ⟨[shA, shB, shC], [shA, shC]⟩).1.selection = []) :=
  ⟨⟨by decide, by decide⟩,
    c2_delete_events_per_shape ⟨[shA, shB, shC], [shA, shC]⟩ (by decide) (by decide)⟩

/-- **C3** counterexample: assigning `selectedShapeIds` changes the selection
(here from empty to one shape) through `targetShapes.set`, yet no `selection`
event fires, because the observer ignores the `"set"` notification — contrary
to the claim that such changes emit a `selection` event. -/
theorem c3_counterexample :
    (setSelectedShapeIds ⟨[shA], []⟩ ["a"]).1.selection = [shA] ∧
    (setSelectedShapeIds ⟨[shA], []⟩ ["a"]).1.selection ≠
      (⟨[shA], []⟩ : EngineState).selection ∧
    (setSelectedShapeIds ⟨[shA], []⟩ ["a"]).2 = [] := by
  decide

/-- **C3** (amended): `selection` events accompany only element-wise changes
of the selection set (notification prop other than `"set"`), such as the
removal performed when a selected shape is deleted from the collection;
selection changes made through `targetShapes.set` — assigning
`selectedShapeIds`, Tab navigation, Escape, and a bulk collection replace —
emit no `selection` event. -/
theorem c3_selection_event_policy (st : EngineState) (ids : List String)
    (mode : InteractiveMode) (shift : Bool) (vs : List ShapeData) (s : ShapeData)
    (hin : idMem st.collection s.id = true) (hsel : idMem st.selection s.id = true) :
    (setSelectedShapeIds st ids).2 = [] ∧
    (onTabulation mode shift st).2 = [] ∧
    (onEscape st).2 = [] ∧
    (setShapesOp st vs).2 = [] ∧
    selectionEvents (deleteShapeOp st s).2 =
      [Event.selection
        ((st.selection.filter fun t => !(t.id == s.id)).map fun t => t.id)] := by
  refine ⟨rfl, onTabulation_events mode shift st, rfl, rfl, ?_⟩
  rw [deleteShapeOp_present hin, hsel]
  simp [selectionEvents]

theorem c3_selection_event_policy_witness :
    (idMem (⟨[shA, shB], [shA]⟩ : EngineState).collection shA.id = true ∧
      idMem (⟨[shA, shB], [shA]⟩ : EngineState).selection shA.id = true) ∧
    ((setSelectedShapeIds ⟨[shA, shB], [shA]⟩ ["b"]).2 = [] ∧
      (onTabulation InteractiveMode.edit false ⟨[shA, shB], [shA]⟩).2 = [] ∧
      (onEscape ⟨[shA, shB], [shA]⟩).2 = [] ∧
      (setShapesOp ⟨[shA, shB], [shA]⟩ [shD]).2 = [] ∧
      selectionEvents (deleteShapeOp ⟨[shA, shB], [shA]⟩ shA).2 =
        [Event.selection
          (((⟨[shA, shB], [shA]⟩ : EngineState).selection.filter
            fun t => !(t.id == shA.id)).map fun t => t.id)]) :=
  ⟨⟨by decide, by decide⟩,
    c3_selection_event_policy ⟨[shA, shB], [shA]⟩ ["b"] InteractiveMode.edit false
      [shD] shA (by decide) (by decide)⟩

/-- **C5** counterexample: a well-formed JSON text that is not an array (such
as `"5"`) does not raise a `ParseError`: `onPaste` returns normally and
silently leaves the state unchanged, contrary to the claim that every
non-sequence input fails with a `ParseError`. -/
theorem c5_counterexample :
    onPaste genZ ParseResult.nonArray ⟨[shC], []⟩ = Except.ok (⟨[shC], []⟩, []) ∧
    onPaste genZ ParseResult.nonArray ⟨[shC], []⟩ ≠
      Except.error PasteError.parse :=
  ⟨rfl, fun hEq => Except.noConfusion hEq⟩

/-- **C5** (amended): `onPaste` surfaces an error exactly on JSON parse
failure, before any mutation; a parsed value that is not an array is
silently ignored, returning with the state unchanged and no error; an array
payload always succeeds and adds every element — one `create` event per
element — so application is never partial. -/
theorem c5_paste_error_handling (gen : Nat → String) (st : EngineState)
    (vs : List ShapeData) :
    onPaste gen ParseResult.fail st = Except.error PasteError.parse ∧
    onPaste gen ParseResult.nonArray st = Except.ok (st, []) ∧
    onPaste gen (ParseResult.arr vs) st =
      Except.ok (addAll (pastedShapes gen vs) st) ∧
    (createEvents (addAll (pastedShapes gen vs) st).2).length = vs.length := by
  refine ⟨rfl, rfl, rfl, ?_⟩
  rw [addAll_events, createEvents_map_create, List.length_map, pastedShapes_length]

/-- **C4** counterexample: `onPaste` draws each new id from `Math.random`
with no check against the ids already present; with the random source
drawing `"a"` while a shape with id `"a"` is in the collection, the pasted
shape receives the non-fresh id `"a"` — and the id-keyed add overwrites the
existing shape instead of adding a new one. -/
theorem c4_counterexample :
    ((pastedShapes genA [vX]).map fun s => s.id) = ["a"] ∧
    idMem [shA] "a" = true ∧
    onPaste genA (ParseResult.arr [vX]) ⟨[shA], []⟩ =
      Except.ok (⟨[⟨"a", "gx", "px"⟩], []⟩, [Event.create ⟨"a", "gx", "px"⟩]) :=
  ⟨by decide, by decide, rfl⟩

/-- **C4** (amended): every pasted shape receives its id from the ambient
random source (one draw per element); the code performs no freshness check,
so distinctness from the collection holds exactly when the draws avoid the
ids already present and each other — in which case the shapes are appended
with ids fresh for the collection. -/
theorem c4_paste_id_freshness (gen : Nat → String) (vs : List ShapeData)
    (st : EngineState)
    (hfresh : ∀ i < vs.length, idMem st.collection (gen i) = false)
    (hinj : ∀ i < vs.length, ∀ j < vs.length, gen i = gen j → i = j) :
    ((pastedShapes gen vs).map fun s => s.id) = (List.range vs.length).map gen ∧
    (∀ s ∈ pastedShapes gen vs, idMem st.collection s.id = false) ∧
    onPaste gen (ParseResult.arr vs) st =
      Except.ok (⟨st.collection ++ pastedShapes gen vs, st.selection⟩,
        (pastedShapes gen vs).map Event.create) := by
  rcases onPaste_arr_fresh gen vs st hfresh hinj with ⟨h1, h2⟩
  exact ⟨pastedShapes_map_id gen vs, h2, h1⟩

theorem c4_paste_id_freshness_witness :
    ((∀ i < [vX].length, idMem [shA] (genZ i) = false) ∧
      (∀ i < [vX].length, ∀ j < [vX].length, genZ i = genZ j → i = j)) ∧
    (((pastedShapes genZ [vX]).map fun s => s.id) =
        (List.range [vX].length).map genZ ∧
      (∀ s ∈ pastedShapes genZ [vX], idMem [shA] s.id = false) ∧
      onPaste genZ (ParseResult.arr [vX]) ⟨[shA], []⟩ =
        Except.ok (⟨[shA] ++ pastedShapes genZ [vX], []⟩,
          (pastedShapes genZ [vX]).map Event.create)) :=
  ⟨⟨by decide, by decide⟩,
    c4_paste_id_freshness genZ [vX] ⟨[shA], []⟩ (by decide) (by decide)⟩

/-- **C6** counterexample: with five shapes and nothing selected, the
claimed mechanism — treat the current index as `0` — would give the first
Shift+Tab next index `(0 + 1 + 5) % 5 = 1`, the second element `shB`; the
code instead proceeds with current index `-1` (the `-1` of `findIndex`
survives `|| 0`, because `-1` is truthy) and selects the first element
`shA`. -/
theorem c6_counterexample :
    tabNextIdxSpecZero true 5 = 1 ∧
    (onTabulation InteractiveMode.edit true ⟨coll5, []⟩).1.selection = [shA] ∧
    coll5.get? 1 = some shB ∧ shA ≠ shB := by
  refine ⟨by decide, by decide, by decide, by decide⟩

/-- **C6** (amended): when no shape is selected, the current index is `-1`
(not `0`: `findIndex` returns `-1` and `|| 0` keeps it, `-1` being truthy),
so on a non-empty collection the first Shift+Tab deterministically selects
the first element (index `0`) and the first Tab the element at index
`(len - 2) % len` — the element preceding the last one when `len ≥ 2`. -/
theorem c6_tab_tiebreak (mode : InteractiveMode)
    (hm : mode ≠ InteractiveMode.create) (coll : List ShapeData)
    (hne : coll ≠ []) :
    onTabulation mode true ⟨coll, []⟩ = (⟨coll, (coll.get? 0).toList⟩, []) ∧
    onTabulation mode false ⟨coll, []⟩ =
      (⟨coll, (coll.get? ((coll.length - 2) % coll.length)).toList⟩, []) := by
  constructor
  · have h := onTabulation_noselect mode hm true coll hne
    simpa using h
  · have h := onTabulation_noselect mode hm false coll hne
    simpa using h

theorem c6_tab_tiebreak_witness :
    (InteractiveMode.edit ≠ InteractiveMode.create ∧ coll5 ≠ []) ∧
    (onTabulation InteractiveMode.edit true ⟨coll5, []⟩ =
        (⟨coll5, (coll5.get? 0).toList⟩, []) ∧
      onTabulation InteractiveMode.edit false ⟨coll5, []⟩ =
        (⟨coll5, (coll5.get? ((coll5.length - 2) % coll5.length)).toList⟩, [])) :=
  ⟨⟨by decide, by decide⟩,
    c6_tab_tiebreak InteractiveMode.edit (by decide) coll5 (by decide)⟩

/-- **C7** counterexample: the ids of pasted shapes come from `Math.random`
with no exclusion of the originals — with the random source drawing the
original id `"o1"`, pasting the copy of the selection produces a shape whose
id equals the original id, so the new ids are not guaranteed to differ from
the ids of the originals. -/
theorem c7_counterexample :
    onCopy ⟨[shO], [shO]⟩ = some [shO] ∧
    ((pastedShapes genO [shO]).map fun s => s.id) = ["o1"] ∧
    onPaste genO (parseOfCopy [shO]) ⟨[shO], [shO]⟩ =
      Except.ok (⟨[shO], [shO]⟩, [Event.create shO]) :=
  ⟨rfl, by decide, rfl⟩

/-- **C7** (amended): pasting the copy of a non-empty selection adds one
shape per copied shape with identical geometry and properties, with ids
drawn from the random source; the new ids differ from the ids of all the
originals exactly when the draws avoid the ids already in the collection
(which, by the subset invariant, contains the originals). -/
theorem c7_copy_paste_roundtrip (st : EngineState) (gen : Nat → String)
    (l : List ShapeData) (hinv : SelSubset st) (hc : onCopy st = some l)
    (hfresh : ∀ i < l.length, idMem st.collection (gen i) = false)
    (hinj : ∀ i < l.length, ∀ j < l.length, gen i = gen j → i = j) :
    l = st.selection ∧
    onPaste gen (parseOfCopy l) st =
      Except.ok (⟨st.collection ++ pastedShapes gen l, st.selection⟩,
        (pastedShapes gen l).map Event.create) ∧
    ((pastedShapes gen l).map fun s => (s.geometry, s.props)) =
      (st.selection.map fun s => (s.geometry, s.props)) ∧
    (∀ s ∈ pastedShapes gen l, ∀ t ∈ st.selection, s.id ≠ t.id) := by
  have hl : l = st.selection := by
    by_cases he : st.selection.isEmpty = true
    · rw [onCopy, if_pos he] at hc
      exact Option.noConfusion hc
    · rw [onCopy, if_neg he] at hc
      exact (Option.some.inj hc).symm
  rcases onPaste_arr_fresh gen l st hfresh hinj with ⟨h1, h2⟩
  refine ⟨hl, h1, ?_, ?_⟩
  · rw [pastedShapes, pastedShapesFrom_map_payload, hl]
  · intro s hs t ht hEq
    have hf := h2 s hs
    have hmem : idMem st.collection t.id = true := hinv t ht
    rw [hEq] at hf
    rw [hf] at hmem
    exact Bool.noConfusion hmem

theorem c7_copy_paste_roundtrip_witness :
    (SelSubset ⟨[shO], [shO]⟩ ∧ onCopy ⟨[shO], [shO]⟩ = some [shO] ∧
      (∀ i < [shO].length, idMem [shO] (genZ i) = false) ∧
      (∀ i < [shO].length, ∀ j < [shO].length, genZ i = genZ j → i = j)) ∧
    ([shO] = (⟨[shO], [shO]⟩ : EngineState).selection ∧
      onPaste genZ (parseOfCopy [shO]) ⟨[shO], [shO]⟩ =
        Except.ok (⟨[shO] ++ pastedShapes genZ [shO], [shO]⟩,
          (pastedShapes genZ [shO]).map Event.create) ∧
      ((pastedShapes genZ [shO]).map fun s => (s.geometry, s.props)) =
        ((⟨[shO], [shO]⟩ : EngineState).selection.map
          fun s => (s.geometry, s.props)) ∧
      (∀ s ∈ pastedShapes genZ [shO],
        ∀ t ∈ (⟨[shO], [shO]⟩ : EngineState).selection, s.id ≠ t.id)) :=
  ⟨⟨by decide, rfl, by decide, by decide⟩,
    c7_copy_paste_roundtrip ⟨[shO], [shO]⟩ genZ [shO] (by decide) rfl
      (by decide) (by decide)⟩

/-- **C8** (confirmed): on a collection of five shapes with pairwise-distinct
ids, outside `create` mode: with no current selection the first Tab
deterministically selects the element at index `3`; from any singleton
selection, five Tab presses return the selection to the element it started
from; and Shift+Tab is the exact inverse of a Tab step (and conversely), so
Shift+Tab walks the same elements in reverse order. -/
theorem c8_cyclic_navigation (mode : InteractiveMode)
    (hm : mode ≠ InteractiveMode.create) (coll : List ShapeData)
    (h5 : coll.length = 5) (hnd : (coll.map fun s => s.id).Nodup) (i : Fin 5) :
    (onTabulation mode false ⟨coll, []⟩).1.selection = (coll.get? 3).toList ∧
    (fun st => (onTabulation mode false st).1)^[5]
        ⟨coll, (coll.get? i.val).toList⟩ = ⟨coll, (coll.get? i.val).toList⟩ ∧
    (onTabulation mode true
        ((onTabulation mode false ⟨coll, (coll.get? i.val).toList⟩).1)).1 =
      ⟨coll, (coll.get? i.val).toList⟩ ∧
    (onTabulation mode false
        ((onTabulation mode true ⟨coll, (coll.get? i.val).toList⟩).1)).1 =
      ⟨coll, (coll.get? i.val).toList⟩ := by
  have hne : coll ≠ [] := by
    intro h
    rw [h] at h5
    exact absurd h5 (by decide)
  have hstep : ∀ j, j < 5 →
      (onTabulation mode false ⟨coll, (coll.get? j).toList⟩).1 =
        ⟨coll, (coll.get? ((j + 4) % 5)).toList⟩ := by
    intro j hj
    obtain ⟨a, ha⟩ : ∃ a, coll.get? j = some a :=
      ⟨_, List.get?_eq_get (by omega)⟩
    have h := onTabulation_selected mode hm false coll hnd j a ha
    rw [h5] at h
    simp only [Bool.false_eq_true, if_false] at h
    have e : j + 5 - 1 = j + 4 := by omega
    rw [e] at h
    rw [ha, Option.toList_some, h]
  have hstepS : ∀ j, j < 5 →
      (onTabulation mode true ⟨coll, (coll.get? j).toList⟩).1 =
        ⟨coll, (coll.get? ((j + 1) % 5)).toList⟩ := by
    intro j hj
    obtain ⟨a, ha⟩ : ∃ a, coll.get? j = some a :=
      ⟨_, List.get?_eq_get (by omega)⟩
    have h := onTabulation_selected mode hm true coll hnd j a ha
    rw [h5] at h
    simp only [if_true] at h
    rw [ha, Option.toList_some, h]
  have h0 : i.val < 5 := i.isLt
  have hlt1 : (i.val + 4) % 5 < 5 := Nat.mod_lt _ (by norm_num)
  have hlt2 : ((i.val + 4) % 5 + 4) % 5 < 5 := Nat.mod_lt _ (by norm_num)
  have hlt3 : (((i.val + 4) % 5 + 4) % 5 + 4) % 5 < 5 := Nat.mod_lt _ (by norm_num)
  have hlt4 : ((((i.val + 4) % 5 + 4) % 5 + 4) % 5 + 4) % 5 < 5 :=
    Nat.mod_lt _ (by norm_num)
  refine ⟨?_, ?_, ?_, ?_⟩
  · have h := onTabulation_noselect mode hm false coll hne
    rw [h5] at h
    simp only [Bool.false_eq_true, if_false] at h
    have e : (5 - 2) % 5 = 3 := by norm_num
    rw [e] at h
    rw [h]
  · have hI := iterate_five (fun st => (onTabulation mode false st).1)
      ⟨coll, (coll.get? i.val).toList⟩
      ⟨coll, (coll.get? ((i.val + 4) % 5)).toList⟩
      ⟨coll, (coll.get? (((i.val + 4) % 5 + 4) % 5)).toList⟩
      ⟨coll, (coll.get? ((((i.val + 4) % 5 + 4) % 5 + 4) % 5)).toList⟩
      ⟨coll, (coll.get? (((((i.val + 4) % 5 + 4) % 5 + 4) % 5 + 4) % 5)).toList⟩
      ⟨coll,
        (coll.get? ((((((i.val + 4) % 5 + 4) % 5 + 4) % 5 + 4) % 5 + 4) % 5)).toList⟩
      (hstep _ h0) (hstep _ hlt1) (hstep _ hlt2) (hstep _ hlt3) (hstep _ hlt4)
    have e5 : ((((((i.val + 4) % 5 + 4) % 5 + 4) % 5 + 4) % 5 + 4) % 5) = i.val := by
      omega
    rw [e5] at hI
    exact hI
  · rw [hstep _ h0, hstepS _ hlt1]
    have e : ((i.val + 4) % 5 + 1) % 5 = i.val := by omega
    rw [e]
  · have hlt1s : (i.val + 1) % 5 < 5 := Nat.mod_lt _ (by norm_num)
    rw [hstepS _ h0, hstep _ hlt1s]
    have e : ((i.val + 1) % 5 + 4) % 5 = i.val := by omega
    rw [e]

theorem c8_cyclic_navigation_witness :
    (InteractiveMode.edit ≠ InteractiveMode.create ∧ coll5.length = 5 ∧
      (coll5.map fun s => s.id).Nodup) ∧
    ((onTabulation InteractiveMode.edit false ⟨coll5, []⟩).1.selection =
        (coll5.get? 3).toList ∧
      (fun st => (onTabulation InteractiveMode.edit false st).1)^[5]
          ⟨coll5, (coll5.get? 2).toList⟩ = ⟨coll5, (coll5.get? 2).toList⟩ ∧
      (onTabulation InteractiveMode.edit true
          ((onTabulation InteractiveMode.edit false
            ⟨coll5, (coll5.get? 2).toList⟩).1)).1 =
        ⟨coll5, (coll5.get? 2).toList⟩ ∧
      (onTabulation InteractiveMode.edit false
          ((onTabulation InteractiveMode.edit true
            ⟨coll5, (coll5.get? 2).toList⟩).1)).1 =
        ⟨coll5, (coll5.get? 2).toList⟩) :=
  ⟨⟨by decide, by decide, by decide⟩,
    c8_cyclic_navigation InteractiveMode.edit (by decide) coll5 (by decide)
      (by decide) ⟨2, by decide⟩⟩

end Pxn
